import Mathlib

/-!
Verification of the dependency-graph core of the ProjectManager repository.

The definitions below are a shallow embedding of `src/core/node.rs`,
`src/core/timeline.rs` and `src/core/graph.rs`:

* `Node` embeds the Rust `enum Node` (tagged union of work-item variants);
  `Uuid` is modelled as `Nat` (the code only compares identifiers for
  equality), `HashSet<String>` as a duplicate-free `List String`, and the
  opaque `chrono` instants inside `Timeline` as `Int`.
* `ProjectGraph` embeds the Rust struct wrapping
  `petgraph::Graph<Node, DependencyType, Directed>` plus the
  `HashMap<Uuid, NodeIndex>` index.  The petgraph node arena becomes a
  `List Node` (a `NodeIndex` is a position; `add_node` appends), the edge
  store becomes a `List Edge` kept in petgraph's adjacency order, which is
  reverse insertion order (petgraph `add_edge` pushes the new edge at the
  head of the source node's adjacency list, and `find_edge`/`edges` walk
  that list), and the `HashMap` becomes an association list (the code only
  inserts a key after checking it is absent, so first-match lookup agrees
  with `HashMap` semantics).
* Fallible Rust methods returning `Result<(), &'static str>` on `&mut self`
  become functions returning the outcome paired with the updated value;
  `RResult.panic` marks the `expect(...)` branches of `try_connect`.
* `isCyclicDirected` embeds `petgraph::algo::is_cyclic_directed`: it decides
  whether the edge list admits a directed cycle, via a saturating
  reachable-set iteration; its correctness against the relational notion of
  a cycle (`HasCycle`) is proved below.
-/

/-- Rust `uuid::Uuid`: an opaque 128-bit identifier, only ever compared for
equality by the core, modelled as `Nat`. -/
abbrev Uuid := Nat

/-- `enum Duration` from `src/core/timeline.rs` (value carrier `i64`). -/
inductive Duration where
  | Hours (n : Int)
  | Days (n : Int)
  | Weeks (n : Int)
deriving DecidableEq

/-- `struct Timeline` from `src/core/timeline.rs`; the `DateTime<Utc>`
instants are opaque to the core and modelled as `Int`.  The Rust field `end`
is a Lean keyword and is rendered `endT`. -/
structure Timeline where
  start : Int
  endT : Option Int
  duration : Option Duration
deriving DecidableEq

/-- `type Participants = HashSet<String>` modelled as a list without
duplicates (insertion is a no-op on an existing element). -/
abbrev Participants := List String

/-- `enum Node` from `src/core/node.rs`. -/
inductive Node where
  | Project (id : Uuid) (name : String) (link : Option String)
      (timeline : Option Timeline) (owner : Option String)
      (participants : Option Participants)
  | Spec (id : Uuid) (name : String) (link : Option String)
      (owner : Option String)
  | Epic (id : Uuid) (name : String) (link : Option String)
      (timeline : Timeline) (points : Option Nat) (owner : Option String)
      (participants : Option Participants)
  | UserStory (id : Uuid) (name : String) (link : Option String)
      (timeline : Timeline) (points : Option Nat) (owner : Option String)
  | Tasks (id : Uuid) (name : String) (link : Option String)
      (timeline : Timeline) (points : Option Nat) (owner : Option String)
deriving DecidableEq

/-- Outcome of a fallible Rust call: `Ok(())`, `Err(msg)`, or a `panic!`
(the `expect` branches); mutation of `&mut self` is modelled by pairing the
outcome with the updated value. -/
inductive RResult where
  | ok
  | err (msg : String)
  | panic (msg : String)
deriving DecidableEq

/-- `Node::get_id` (`src/core/node.rs:52`). -/
def Node.get_id : Node → Uuid
  | .Project id .. => id
  | .Spec id .. => id
  | .Epic id .. => id
  | .UserStory id .. => id
  | .Tasks id .. => id

/-- `Node::get_name` (`src/core/node.rs:64`). -/
def Node.get_name : Node → String
  | .Project _ name .. => name
  | .Spec _ name .. => name
  | .Epic _ name .. => name
  | .UserStory _ name .. => name
  | .Tasks _ name .. => name

/-- `Node::set_id` (`src/core/node.rs:76`): overwrites the identifier on
every variant. -/
def Node.set_id (n : Node) (uid : Uuid) : Node :=
  match n with
  | .Project _ name link tl ow pa => .Project uid name link tl ow pa
  | .Spec _ name link ow => .Spec uid name link ow
  | .Epic _ name link tl pts ow pa => .Epic uid name link tl pts ow pa
  | .UserStory _ name link tl pts ow => .UserStory uid name link tl pts ow
  | .Tasks _ name link tl pts ow => .Tasks uid name link tl pts ow

/-- `Node::set_name` (`src/core/node.rs:88`). -/
def Node.set_name (n : Node) (new_name : String) : Node :=
  match n with
  | .Project id _ link tl ow pa => .Project id new_name link tl ow pa
  | .Spec id _ link ow => .Spec id new_name link ow
  | .Epic id _ link tl pts ow pa => .Epic id new_name link tl pts ow pa
  | .UserStory id _ link tl pts ow => .UserStory id new_name link tl pts ow
  | .Tasks id _ link tl pts ow => .Tasks id new_name link tl pts ow

/-- `Node::set_link` (`src/core/node.rs:100`). -/
def Node.set_link (n : Node) (new_link : String) : Node :=
  match n with
  | .Project id name _ tl ow pa => .Project id name (some new_link) tl ow pa
  | .Spec id name _ ow => .Spec id name (some new_link) ow
  | .Epic id name _ tl pts ow pa => .Epic id name (some new_link) tl pts ow pa
  | .UserStory id name _ tl pts ow => .UserStory id name (some new_link) tl pts ow
  | .Tasks id name _ tl pts ow => .Tasks id name (some new_link) tl pts ow

/-- `Node::set_timeline` (`src/core/node.rs:112`): Project stores
`Some(new_timeline)`, Spec is a silent no-op, the other variants overwrite
their required timeline. -/
def Node.set_timeline (n : Node) (new_timeline : Timeline) : Node :=
  match n with
  | .Project id name link _ ow pa => .Project id name link (some new_timeline) ow pa
  | .Spec id name link ow => .Spec id name link ow
  | .Epic id name link _ pts ow pa => .Epic id name link new_timeline pts ow pa
  | .UserStory id name link _ pts ow => .UserStory id name link new_timeline pts ow
  | .Tasks id name link _ pts ow => .Tasks id name link new_timeline pts ow

/-- `Node::set_owner` (`src/core/node.rs:126`). -/
def Node.set_owner (n : Node) (new_owner : String) : Node :=
  match n with
  | .Project id name link tl _ pa => .Project id name link tl (some new_owner) pa
  | .Spec id name link _ => .Spec id name link (some new_owner)
  | .Epic id name link tl pts _ pa => .Epic id name link tl pts (some new_owner) pa
  | .UserStory id name link tl pts _ => .UserStory id name link tl pts (some new_owner)
  | .Tasks id name link tl pts _ => .Tasks id name link tl pts (some new_owner)

/-- `HashSet::insert` on the list model: adds the element unless already
present (the Rust code ignores the returned `bool`). -/
def insertParticipant (s : Participants) (p : String) : Participants :=
  if p ∈ s then s else p :: s

/-- `Node::add_participant` (`src/core/node.rs:138`):
`participants.get_or_insert_with(HashSet::new).insert(participant)` for
Project and Epic, error for every other variant. -/
def Node.add_participant (n : Node) (participant : String) : RResult × Node :=
  match n with
  | .Project id name link tl ow pa =>
      (RResult.ok,
        .Project id name link tl ow (some (insertParticipant (pa.getD []) participant)))
  | .Epic id name link tl pts ow pa =>
      (RResult.ok,
        .Epic id name link tl pts ow (some (insertParticipant (pa.getD []) participant)))
  | other => (RResult.err "This node type does not support participants", other)

/-- `Node::remove_participant` (`src/core/node.rs:151`): for Project/Epic,
`hs.remove(participant)` succeeds exactly when the element was present;
an absent participant set or an absent element is an error. -/
def Node.remove_participant (n : Node) (participant : String) : RResult × Node :=
  match n with
  | .Project id name link tl ow pa =>
      match pa with
      | some hs =>
          if participant ∈ hs then
            (RResult.ok, .Project id name link tl ow (some (hs.erase participant)))
          else
            (RResult.err "participant does not exist", .Project id name link tl ow pa)
      | none =>
          (RResult.err "Participants for this node are empty", .Project id name link tl ow pa)
  | .Epic id name link tl pts ow pa =>
      match pa with
      | some hs =>
          if participant ∈ hs then
            (RResult.ok, .Epic id name link tl pts ow (some (hs.erase participant)))
          else
            (RResult.err "participant does not exist", .Epic id name link tl pts ow pa)
      | none =>
          (RResult.err "Participants for this node are empty", .Epic id name link tl pts ow pa)
  | other => (RResult.err "This node type does not support participants", other)

/-- `Node::set_points` (`src/core/node.rs:174`): Epic/UserStory/Tasks store
`Some(new_points)`, Project/Spec fail. -/
def Node.set_points (n : Node) (new_points : Nat) : RResult × Node :=
  match n with
  | .Epic id name link tl _ ow pa =>
      (RResult.ok, .Epic id name link tl (some new_points) ow pa)
  | .UserStory id name link tl _ ow =>
      (RResult.ok, .UserStory id name link tl (some new_points) ow)
  | .Tasks id name link tl _ ow =>
      (RResult.ok, .Tasks id name link tl (some new_points) ow)
  | other => (RResult.err "This node type does not contain points", other)

/-- `enum DependencyType` from `src/core/graph.rs:16`. -/
inductive DependencyType where
  | Blocks
  | ResourcesRequiredFor
  | Contains
deriving DecidableEq

/-- One directed labeled edge of the petgraph store: endpoints are node
positions (`NodeIndex`), the weight is the dependency type. -/
structure Edge where
  src : Nat
  tgt : Nat
  dep : DependencyType
deriving DecidableEq

/-- `struct ProjectGraph` from `src/core/graph.rs:23`.  `edges` is kept in
petgraph adjacency order: most recently added first. -/
structure ProjectGraph where
  nodes : List Node
  edges : List Edge
  uid_to_index : List (Uuid × Nat)
deriving DecidableEq

/-- `ProjectGraph::new` (`src/core/graph.rs:30`). -/
def ProjectGraph.new : ProjectGraph :=
  { nodes := [], edges := [], uid_to_index := [] }

/-- `HashMap::get` on the association-list model (first match; keys are
unique in every state the code builds). -/
def find_index (m : List (Uuid × Nat)) (u : Uuid) : Option Nat :=
  (m.find? (fun p => p.1 == u)).map (fun p => p.2)

/-- `HashMap::contains_key` on the association-list model. -/
def contains_key (m : List (Uuid × Nat)) (u : Uuid) : Bool :=
  m.any (fun p => p.1 == u)

/-- `ProjectGraph::is_valid_connection` (`src/core/graph.rs:37`): the
compatibility-policy match, one arm per permitted
(source variant, target variant, dependency type) triple. -/
def is_valid_connection (fromN toN : Node) (dep_type : DependencyType) : Bool :=
  match fromN, toN, dep_type with
  | .Spec .., .Spec .., .Contains => true
  | .Spec .., .Project .., .Contains => true
  | .Project .., .Project .., .Contains => true
  | .Project .., .Epic .., .Contains => true
  | .Project .., .UserStory .., .Contains => true
  | .Epic .., .UserStory .., .Contains => true
  | .UserStory .., .Tasks .., .Contains => true
  | .Project .., .Project .., .Blocks => true
  | .Epic .., .Epic .., .Blocks => true
  | .UserStory .., .UserStory .., .Blocks => true
  | .Tasks .., .Tasks .., .Blocks => true
  | .UserStory .., .Epic .., .Blocks => true
  | .Project .., .Project .., .ResourcesRequiredFor => true
  | .Epic .., .Epic .., .ResourcesRequiredFor => true
  | .UserStory .., .UserStory .., .ResourcesRequiredFor => true
  | .Tasks .., .Tasks .., .ResourcesRequiredFor => true
  | .Tasks .., .UserStory .., .ResourcesRequiredFor => true
  | _, _, _ => false

/-- One step of successor expansion over the edge list: `S` together with
the targets of all edges whose source lies in `S`. -/
def stepSet (E : List Edge) (S : Finset Nat) : Finset Nat :=
  S ∪ ((E.filter (fun e => decide (e.src ∈ S))).map (fun e => e.tgt)).toFinset

/-- The set of vertices reachable from `a` in at most `n` edge steps. -/
def reachSet (E : List Edge) (a : Nat) : Nat → Finset Nat
  | 0 => {a}
  | n + 1 => stepSet E (reachSet E a n)

/-- All vertices mentioned by some edge. -/
def supportF (E : List Edge) : Finset Nat :=
  (E.map (fun e => e.src)).toFinset ∪ (E.map (fun e => e.tgt)).toFinset

/-- Decides directed reachability from `a` to `b` over the edge list: the
saturation of `reachSet` is complete once the fuel reaches the number of
vertices that can ever appear in it. -/
def reachableB (E : List Edge) (a b : Nat) : Bool :=
  decide (b ∈ reachSet E a ((insert a (supportF E)).card))

/-- `petgraph::algo::is_cyclic_directed`, by result: the graph has a
directed cycle iff some edge's target reaches its source. -/
def isCyclicDirected (E : List Edge) : Bool :=
  E.any (fun e => reachableB E e.tgt e.src)

/-- `ProjectGraph::try_connect` (`src/core/graph.rs:70`): look both indices
up (`expect` = panic if absent), push the edge, run the cycle scan, and on a
cycle remove the first `(from_idx, to_idx)` edge in adjacency order
(`find_edge` + `remove_edge`) before failing. -/
def try_connect (g : ProjectGraph) (node1 node2 : Node)
    (dep_type : DependencyType) : RResult × ProjectGraph :=
  let u1 := node1.get_id
  let u2 := node2.get_id
  match find_index g.uid_to_index u1 with
  | none => (RResult.panic "Bug: node existence was already verified", g)
  | some from_idx =>
    match find_index g.uid_to_index u2 with
    | none => (RResult.panic "Bug: node existence was already verified", g)
    | some to_idx =>
      let pushed : List Edge := Edge.mk from_idx to_idx dep_type :: g.edges
      if isCyclicDirected pushed then
        (RResult.err "Connection would create a cycle",
          { g with edges := pushed.eraseP (fun e => e.src == from_idx && e.tgt == to_idx) })
      else
        (RResult.ok, { g with edges := pushed })

/-- `ProjectGraph::add_node` (`src/core/graph.rs:89`): reject an already
indexed identifier, otherwise append the cloned node to the arena (its
`NodeIndex` is the old node count) and record identifier → index. -/
def add_node (g : ProjectGraph) (node : Node) : RResult × ProjectGraph :=
  let node_id := node.get_id
  if g.uid_to_index.any (fun k => k.1 == node_id) then
    (RResult.err "The node has already been inserted into the graph", g)
  else
    (RResult.ok,
      { g with
        nodes := g.nodes ++ [node],
        uid_to_index := g.uid_to_index ++ [(node_id, g.nodes.length)] })

/-- `ProjectGraph::connect_nodes` (`src/core/graph.rs:102`): compatibility
check first, then existence of both identifiers, then `try_connect`. -/
def connect_nodes (g : ProjectGraph) (node1 node2 : Node)
    (dep_type : DependencyType) : RResult × ProjectGraph :=
  let u1 := node1.get_id
  let u2 := node2.get_id
  if ¬ (is_valid_connection node1 node2 dep_type = true) then
    (RResult.err "Invalid connection between the two nodes", g)
  else if ¬ (contains_key g.uid_to_index u1 = true) ∨
          ¬ (contains_key g.uid_to_index u2 = true) then
    (RResult.err "One or more of the nodes does not exist in the graph", g)
  else
    try_connect g node1 node2 dep_type

/-- `ProjectGraph::get_node` (`src/core/graph.rs:117`). -/
def get_node (g : ProjectGraph) (id : Uuid) : Option Node :=
  (find_index g.uid_to_index id).bind (fun idx => g.nodes[idx]?)

/-- `ProjectGraph::get_dependencies` (`src/core/graph.rs:121`): outgoing
edges of the vertex in adjacency order, each mapped to (target id, type). -/
def get_dependencies (g : ProjectGraph) (uuid : Uuid) :
    Option (List (Uuid × DependencyType)) :=
  (find_index g.uid_to_index uuid).map (fun idx =>
    (g.edges.filter (fun e => e.src == idx)).filterMap (fun e =>
      (g.nodes[e.tgt]?).map (fun target => (target.get_id, e.dep))))

/-- The graph states reachable from `ProjectGraph::new` by any sequence of
`add_node` / `connect_nodes` calls with arbitrary node arguments (failed
calls keep the state the call returns); `get_node` and `get_dependencies`
take the graph immutably and are not state transitions. -/
inductive Reachable : ProjectGraph → Prop where
  | empty : Reachable ProjectGraph.new
  | addNode (g : ProjectGraph) (n : Node) :
      Reachable g → Reachable (add_node g n).2
  | connect (g : ProjectGraph) (n1 n2 : Node) (t : DependencyType) :
      Reachable g → Reachable (connect_nodes g n1 n2 t).2

/-- The edge relation of an edge list: there is some edge from `a` to `b`,
of any dependency type. -/
def EdgeRel (E : List Edge) (a b : Nat) : Prop :=
  ∃ d, Edge.mk a b d ∈ E

/-- A directed cycle in the relational sense: a nonempty closed walk. -/
def HasCycle (E : List Edge) : Prop :=
  ∃ a, Relation.TransGen (EdgeRel E) a a

theorem subset_stepSet (E : List Edge) (S : Finset Nat) : S ⊆ stepSet E S :=
  Finset.subset_union_left

theorem mem_stepSet_iff {E : List Edge} {S : Finset Nat} {b : Nat} :
    b ∈ stepSet E S ↔ b ∈ S ∨ ∃ e ∈ E, e.src ∈ S ∧ e.tgt = b := by
  simp only [stepSet, Finset.mem_union, List.mem_toFinset, List.mem_map,
    List.mem_filter, decide_eq_true_eq]
  tauto

theorem stepSet_mono {E : List Edge} {S T : Finset Nat} (h : S ⊆ T) :
    stepSet E S ⊆ stepSet E T := by
  intro b hb
  rcases mem_stepSet_iff.1 hb with hb | ⟨e, he, hsrc, htgt⟩
  · exact mem_stepSet_iff.2 (Or.inl (h hb))
  · exact mem_stepSet_iff.2 (Or.inr ⟨e, he, h hsrc, htgt⟩)

theorem reachSet_subset_succ (E : List Edge) (a : Nat) (n : Nat) :
    reachSet E a n ⊆ reachSet E a (n + 1) :=
  subset_stepSet E (reachSet E a n)

theorem reachSet_mono (E : List Edge) (a : Nat) {m n : Nat} (h : m ≤ n) :
    reachSet E a m ⊆ reachSet E a n := by
  induction n with
  | zero => cases Nat.le_zero.1 h; exact Finset.Subset.refl _
  | succ n ih =>
      rcases Nat.lt_or_ge m (n + 1) with hlt | hge
      · exact Finset.Subset.trans (ih (Nat.lt_succ_iff.1 hlt)) (reachSet_subset_succ E a n)
      · cases Nat.le_antisymm h hge
        exact Finset.Subset.refl _

theorem mem_reachSet_self (E : List Edge) (a : Nat) (n : Nat) :
    a ∈ reachSet E a n := by
  have h0 : a ∈ reachSet E a 0 := by simp [reachSet]
  exact reachSet_mono E a (Nat.zero_le n) h0

theorem reachSet_sound {E : List Edge} {a b : Nat} {n : Nat}
    (h : b ∈ reachSet E a n) : Relation.ReflTransGen (EdgeRel E) a b := by
  induction n generalizing b with
  | zero =>
      simp only [reachSet, Finset.mem_singleton] at h
      cases h
      exact Relation.ReflTransGen.refl
  | succ n ih =>
      rcases mem_stepSet_iff.1 h with hb | ⟨e, he, hsrc, htgt⟩
      · exact ih hb
      · have hrel : EdgeRel E e.src e.tgt := ⟨e.dep, by simpa using he⟩
        cases htgt
        exact Relation.ReflTransGen.tail (ih hsrc) hrel

theorem reachSet_subset_support (E : List Edge) (a : Nat) (n : Nat) :
    reachSet E a n ⊆ insert a (supportF E) := by
  induction n with
  | zero => simp [reachSet]
  | succ n ih =>
      intro b hb
      rcases mem_stepSet_iff.1 hb with hb | ⟨e, he, _, htgt⟩
      · exact ih hb
      · refine Finset.mem_insert_of_mem ?_
        refine Finset.mem_union_right _ ?_
        simp only [List.mem_toFinset, List.mem_map]
        exact ⟨e, he, htgt⟩

theorem stepSet_fix_closed {E : List Edge} {S : Finset Nat}
    (hfix : stepSet E S = S) {a b : Nat} (ha : a ∈ S)
    (h : Relation.ReflTransGen (EdgeRel E) a b) : b ∈ S := by
  induction h with
  | refl => exact ha
  | tail _ hrel ih =>
      rcases hrel with ⟨d, hd⟩
      have : _ ∈ stepSet E S := mem_stepSet_iff.2 (Or.inr ⟨_, hd, ih, rfl⟩)
      rw [hfix] at this
      exact this

theorem card_le_reachSet (E : List Edge) (a : Nat) (n : Nat)
    (h : ∀ m < n, reachSet E a m ≠ reachSet E a (m + 1)) :
    n + 1 ≤ (reachSet E a n).card := by
  induction n with
  | zero =>
      have : a ∈ reachSet E a 0 := mem_reachSet_self E a 0
      exact Finset.card_pos.2 ⟨a, this⟩
  | succ n ih =>
      have hne : reachSet E a n ≠ reachSet E a (n + 1) :=
        h n (Nat.lt_succ_self n)
      have hss : reachSet E a n ⊂ reachSet E a (n + 1) :=
        Finset.ssubset_iff_subset_ne.2 ⟨reachSet_subset_succ E a n, hne⟩
      have hprev : n + 1 ≤ (reachSet E a n).card :=
        ih (fun m hm => h m (Nat.lt_succ_of_lt hm))
      exact Nat.succ_le_of_lt (Nat.lt_of_le_of_lt hprev (Finset.card_lt_card hss))

theorem reachSet_stable (E : List Edge) (a : Nat) {m : Nat}
    (h : reachSet E a m = reachSet E a (m + 1)) (k : Nat) :
    reachSet E a m = reachSet E a (m + k) := by
  induction k with
  | zero => rfl
  | succ k ih =>
      have h1 : reachSet E a (m + (k + 1)) = stepSet E (reachSet E a (m + k)) := rfl
      rw [h1, ← ih]
      exact h

theorem exists_reachSet_fix (E : List Edge) (a : Nat) :
    ∃ m < (insert a (supportF E)).card,
      reachSet E a m = reachSet E a (m + 1) := by
  by_contra hcon
  push_neg at hcon
  set N := (insert a (supportF E)).card with hN
  have h1 : N + 1 ≤ (reachSet E a N).card := card_le_reachSet E a N hcon
  have h2 : (reachSet E a N).card ≤ N :=
    Finset.card_le_card (reachSet_subset_support E a N)
  omega

theorem reachableB_complete {E : List Edge} {a b : Nat}
    (h : Relation.ReflTransGen (EdgeRel E) a b) : reachableB E a b = true := by
  obtain ⟨m, hm, hfix⟩ := exists_reachSet_fix E a
  have hclosed : stepSet E (reachSet E a m) = reachSet E a m := hfix.symm
  have hb : b ∈ reachSet E a m :=
    stepSet_fix_closed hclosed (mem_reachSet_self E a m) h
  have : b ∈ reachSet E a ((insert a (supportF E)).card) :=
    reachSet_mono E a (Nat.le_of_lt hm) hb
  simpa [reachableB] using this

theorem reachableB_sound {E : List Edge} {a b : Nat}
    (h : reachableB E a b = true) : Relation.ReflTransGen (EdgeRel E) a b := by
  have := of_decide_eq_true h
  exact reachSet_sound this

theorem isCyclicDirected_iff_hasCycle (E : List Edge) :
    isCyclicDirected E = true ↔ HasCycle E := by
  constructor
  · intro h
    rcases List.any_eq_true.1 h with ⟨e, he, hr⟩
    have hreach : Relation.ReflTransGen (EdgeRel E) e.tgt e.src :=
      reachableB_sound hr
    have hedge : EdgeRel E e.src e.tgt := ⟨e.dep, by simpa using he⟩
    exact ⟨e.src, Relation.TransGen.head' hedge hreach⟩
  · rintro ⟨a, hcyc⟩
    rcases Relation.TransGen.head'_iff.1 hcyc with ⟨b, hab, hba⟩
    rcases hab with ⟨d, hd⟩
    refine List.any_eq_true.2 ⟨Edge.mk a b d, hd, ?_⟩
    exact reachableB_complete hba

theorem isCyclicDirected_eq_false_iff (E : List Edge) :
    isCyclicDirected E = false ↔ ¬ HasCycle E := by
  rw [← isCyclicDirected_iff_hasCycle]
  constructor
  · intro h; simp [h]
  · intro h
    cases hb : isCyclicDirected E
    · rfl
    · exact absurd hb h

theorem contains_key_iff_isSome (m : List (Uuid × Nat)) (u : Uuid) :
    contains_key m u = true ↔ (find_index m u).isSome = true := by
  simp [contains_key, find_index, List.any_eq_true, List.find?_isSome]

theorem add_node_edges (g : ProjectGraph) (n : Node) :
    (add_node g n).2.edges = g.edges := by
  by_cases h : g.uid_to_index.any (fun k => k.1 == n.get_id) = true <;>
    simp [add_node, h]

theorem add_node_err_graph (g : ProjectGraph) (n : Node)
    (h : g.uid_to_index.any (fun k => k.1 == n.get_id) = true) :
    add_node g n = (RResult.err "The node has already been inserted into the graph", g) := by
  simp [add_node, h]

theorem add_node_ok_graph (g : ProjectGraph) (n : Node)
    (h : g.uid_to_index.any (fun k => k.1 == n.get_id) = false) :
    add_node g n = (RResult.ok,
      { nodes := g.nodes ++ [n], edges := g.edges,
        uid_to_index := g.uid_to_index ++ [(n.get_id, g.nodes.length)] }) := by
  simp [add_node, h]

theorem connect_nodes_of_invalid (g : ProjectGraph) (n1 n2 : Node)
    (t : DependencyType) (hv : is_valid_connection n1 n2 t = false) :
    connect_nodes g n1 n2 t = (RResult.err "Invalid connection between the two nodes", g) := by
  simp [connect_nodes, hv]

theorem connect_nodes_of_missing (g : ProjectGraph) (n1 n2 : Node)
    (t : DependencyType) (hv : is_valid_connection n1 n2 t = true)
    (hm : contains_key g.uid_to_index n1.get_id = false ∨
          contains_key g.uid_to_index n2.get_id = false) :
    connect_nodes g n1 n2 t =
      (RResult.err "One or more of the nodes does not exist in the graph", g) := by
  rcases hm with hm | hm <;> simp [connect_nodes, hv, hm]

theorem connect_nodes_of_present (g : ProjectGraph) (n1 n2 : Node)
    (t : DependencyType) (hv : is_valid_connection n1 n2 t = true)
    (h1 : contains_key g.uid_to_index n1.get_id = true)
    (h2 : contains_key g.uid_to_index n2.get_id = true) :
    connect_nodes g n1 n2 t = try_connect g n1 n2 t := by
  simp [connect_nodes, hv, h1, h2]

theorem try_connect_of_cyclic (g : ProjectGraph) (n1 n2 : Node)
    (t : DependencyType) {i j : Nat}
    (h1 : find_index g.uid_to_index n1.get_id = some i)
    (h2 : find_index g.uid_to_index n2.get_id = some j)
    (hc : isCyclicDirected (Edge.mk i j t :: g.edges) = true) :
    try_connect g n1 n2 t = (RResult.err "Connection would create a cycle", g) := by
  have hpred : (fun e => e.src == i && e.tgt == j) (Edge.mk i j t) = true := by simp
  have herase :
      (Edge.mk i j t :: g.edges).eraseP (fun e => e.src == i && e.tgt == j) = g.edges :=
    List.eraseP_cons_of_pos hpred
  simp [try_connect, h1, h2, hc, herase]

theorem try_connect_of_acyclic (g : ProjectGraph) (n1 n2 : Node)
    (t : DependencyType) {i j : Nat}
    (h1 : find_index g.uid_to_index n1.get_id = some i)
    (h2 : find_index g.uid_to_index n2.get_id = some j)
    (hc : isCyclicDirected (Edge.mk i j t :: g.edges) = false) :
    try_connect g n1 n2 t = (RResult.ok, { g with edges := Edge.mk i j t :: g.edges }) := by
  simp [try_connect, h1, h2, hc]

theorem connect_nodes_shape (g : ProjectGraph) (n1 n2 : Node) (t : DependencyType) :
    (connect_nodes g n1 n2 t).2 = g ∨
    ∃ i j, find_index g.uid_to_index n1.get_id = some i ∧
      find_index g.uid_to_index n2.get_id = some j ∧
      is_valid_connection n1 n2 t = true ∧
      isCyclicDirected (Edge.mk i j t :: g.edges) = false ∧
      connect_nodes g n1 n2 t =
        (RResult.ok, { g with edges := Edge.mk i j t :: g.edges }) := by
  by_cases hv : is_valid_connection n1 n2 t = true
  · by_cases hc1 : contains_key g.uid_to_index n1.get_id = true
    · by_cases hc2 : contains_key g.uid_to_index n2.get_id = true
      · obtain ⟨i, hi⟩ := Option.isSome_iff_exists.1 ((contains_key_iff_isSome _ _).1 hc1)
        obtain ⟨j, hj⟩ := Option.isSome_iff_exists.1 ((contains_key_iff_isSome _ _).1 hc2)
        rw [connect_nodes_of_present g n1 n2 t hv hc1 hc2]
        by_cases hcyc : isCyclicDirected (Edge.mk i j t :: g.edges) = true
        · left
          rw [try_connect_of_cyclic g n1 n2 t hi hj hcyc]
        · right
          refine ⟨i, j, hi, hj, hv, Bool.not_eq_true _ ▸ hcyc, ?_⟩
          exact try_connect_of_acyclic g n1 n2 t hi hj (Bool.not_eq_true _ ▸ hcyc)
      · left
        rw [connect_nodes_of_missing g n1 n2 t hv (Or.inr (Bool.not_eq_true _ ▸ hc2))]
    · left
      rw [connect_nodes_of_missing g n1 n2 t hv (Or.inl (Bool.not_eq_true _ ▸ hc1))]
  · left
    rw [connect_nodes_of_invalid g n1 n2 t (Bool.not_eq_true _ ▸ hv)]

theorem connect_nodes_nodes_eq (g : ProjectGraph) (n1 n2 : Node) (t : DependencyType) :
    (connect_nodes g n1 n2 t).2.nodes = g.nodes ∧
    (connect_nodes g n1 n2 t).2.uid_to_index = g.uid_to_index := by
  rcases connect_nodes_shape g n1 n2 t with heq | ⟨i, j, _, _, _, _, hres⟩
  · rw [heq]; exact ⟨rfl, rfl⟩
  · rw [hres]; exact ⟨rfl, rfl⟩

theorem reachable_not_cyclic {g : ProjectGraph} (h : Reachable g) :
    isCyclicDirected g.edges = false := by
  induction h with
  | empty => rfl
  | addNode g n _ ih => rw [add_node_edges]; exact ih
  | connect g n1 n2 t _ ih =>
      rcases connect_nodes_shape g n1 n2 t with heq | ⟨i, j, _, _, _, hcyc, hres⟩
      · rw [heq]; exact ih
      · rw [hres]; exact hcyc

theorem reachable_ids {g : ProjectGraph} (h : Reachable g) :
    g.uid_to_index.map Prod.fst = g.nodes.map Node.get_id := by
  induction h with
  | empty => rfl
  | addNode g n _ ih =>
      by_cases hc : g.uid_to_index.any (fun k => k.1 == n.get_id) = true
      · rw [add_node_err_graph g n hc]; exact ih
      · rw [add_node_ok_graph g n (Bool.not_eq_true _ ▸ hc)]
        simp [ih]
  | connect g n1 n2 t _ ih =>
      rw [(connect_nodes_nodes_eq g n1 n2 t).1, (connect_nodes_nodes_eq g n1 n2 t).2]
      exact ih

theorem getElem?_append_of_some {α} {l l' : List α} {i : Nat} {x : α}
    (h : l[i]? = some x) : (l ++ l')[i]? = some x := by
  have hi : i < l.length := by
    by_contra hge
    rw [List.getElem?_eq_none (Nat.le_of_not_lt hge)] at h
    cases h
  rw [List.getElem?_append_left hi]
  exact h

/-- The variant tag of a `Node`. -/
inductive NodeKind where
  | Spec
  | Project
  | Epic
  | UserStory
  | Tasks
deriving DecidableEq

/-- The variant of a vertex value. -/
def Node.kind : Node → NodeKind
  | .Project .. => .Project
  | .Spec .. => .Spec
  | .Epic .. => .Epic
  | .UserStory .. => .UserStory
  | .Tasks .. => .Tasks

/-- The compatibility table of spec §4.2, written out as the claimed list of
permitted (from variant, to variant, dependency type) triples. -/
def policyTable : List (NodeKind × NodeKind × DependencyType) :=
  [ (.Spec, .Spec, .Contains),
    (.Spec, .Project, .Contains),
    (.Project, .Project, .Contains),
    (.Project, .Project, .Blocks),
    (.Project, .Project, .ResourcesRequiredFor),
    (.Project, .Epic, .Contains),
    (.Project, .UserStory, .Contains),
    (.Epic, .UserStory, .Contains),
    (.Epic, .Epic, .Blocks),
    (.Epic, .Epic, .ResourcesRequiredFor),
    (.UserStory, .Tasks, .Contains),
    (.UserStory, .UserStory, .Blocks),
    (.UserStory, .UserStory, .ResourcesRequiredFor),
    (.UserStory, .Epic, .Blocks),
    (.Tasks, .Tasks, .Blocks),
    (.Tasks, .Tasks, .ResourcesRequiredFor),
    (.Tasks, .UserStory, .ResourcesRequiredFor) ]

theorem is_valid_connection_iff_mem_table (f t : Node) (d : DependencyType) :
    is_valid_connection f t d = true ↔ (f.kind, t.kind, d) ∈ policyTable := by
  cases f <;> cases t <;> cases d <;>
    simp [is_valid_connection, Node.kind, policyTable]

/-- Spec §3 invariant 3 over the stored vertices: every edge's endpoints are
stored positions whose vertices' variants together with the edge type pass
the compatibility policy. -/
def EdgesRespectPolicy (g : ProjectGraph) : Prop :=
  ∀ e ∈ g.edges, ∃ nf nt, g.nodes[e.src]? = some nf ∧ g.nodes[e.tgt]? = some nt ∧
    is_valid_connection nf nt e.dep = true

/-- Reachability restricted to well-used `connect_nodes` calls: each call
passes vertex values that are currently stored in the graph under their own
identifiers (the intended usage of the node-reference API). -/
inductive ReachableS : ProjectGraph → Prop where
  | empty : ReachableS ProjectGraph.new
  | addNode (g : ProjectGraph) (n : Node) :
      ReachableS g → ReachableS (add_node g n).2
  | connect (g : ProjectGraph) (n1 n2 : Node) (t : DependencyType) :
      ReachableS g → get_node g n1.get_id = some n1 →
      get_node g n2.get_id = some n2 →
      ReachableS (connect_nodes g n1 n2 t).2

theorem get_node_some_elim {g : ProjectGraph} {u : Uuid} {n : Node}
    (h : get_node g u = some n) :
    ∃ i, find_index g.uid_to_index u = some i ∧ g.nodes[i]? = some n := by
  unfold get_node at h
  cases hf : find_index g.uid_to_index u with
  | none => rw [hf] at h; cases h
  | some i =>
      rw [hf] at h
      exact ⟨i, rfl, h⟩

theorem reachableS_edges_respect {g : ProjectGraph} (h : ReachableS g) :
    EdgesRespectPolicy g := by
  induction h with
  | empty => intro e he; cases he
  | addNode g n _ ih =>
      intro e he
      rw [add_node_edges] at he
      obtain ⟨nf, nt, h1, h2, hv⟩ := ih e he
      by_cases hc : g.uid_to_index.any (fun k => k.1 == n.get_id) = true
      · rw [add_node_err_graph g n hc]
        exact ⟨nf, nt, h1, h2, hv⟩
      · rw [add_node_ok_graph g n (Bool.not_eq_true _ ▸ hc)]
        exact ⟨nf, nt, getElem?_append_of_some h1, getElem?_append_of_some h2, hv⟩
  | connect g n1 n2 t _ hs1 hs2 ih =>
      rcases connect_nodes_shape g n1 n2 t with heq | ⟨i, j, hi, hj, hv, _, hres⟩
      · rw [heq]; exact ih
      · rw [hres]
        intro e he
        rcases List.mem_cons.1 he with rfl | he
        · obtain ⟨i', hi', hni⟩ := get_node_some_elim hs1
          obtain ⟨j', hj', hnj⟩ := get_node_some_elim hs2
          rw [hi] at hi'
          rw [hj] at hj'
          cases hi'
          cases hj'
          exact ⟨n1, n2, hni, hnj, hv⟩
        · exact ih e he

/-- Zero or more `connect_nodes` transitions from a state (`get_node` and
`get_dependencies` take the graph immutably, so they are not transitions). -/
inductive ConnectStar : ProjectGraph → ProjectGraph → Prop where
  | refl (g : ProjectGraph) : ConnectStar g g
  | tail (g h : ProjectGraph) (n1 n2 : Node) (t : DependencyType) :
      ConnectStar g h → ConnectStar g (connect_nodes h n1 n2 t).2

theorem connectStar_get_node {g g2 : ProjectGraph} (h : ConnectStar g g2)
    (u : Uuid) : get_node g2 u = get_node g u := by
  induction h with
  | refl => rfl
  | tail gm n1 n2 t _ ih =>
      have hn := connect_nodes_nodes_eq gm n1 n2 t
      have hstep : get_node (connect_nodes gm n1 n2 t).2 u = get_node gm u := by
        unfold get_node
        rw [hn.1, hn.2]
      rw [hstep, ih]

theorem add_node_ok_any_eq_false {g : ProjectGraph} {n : Node}
    (h : (add_node g n).1 = RResult.ok) :
    g.uid_to_index.any (fun k => k.1 == n.get_id) = false := by
  by_cases hc : g.uid_to_index.any (fun k => k.1 == n.get_id) = true
  · rw [add_node_err_graph g n hc] at h
    cases h
  · exact Bool.not_eq_true _ ▸ hc

theorem add_node_ok_get_node (g : ProjectGraph) (n : Node)
    (h : (add_node g n).1 = RResult.ok) :
    get_node (add_node g n).2 n.get_id = some n := by
  have hc := add_node_ok_any_eq_false h
  rw [add_node_ok_graph g n hc]
  have hnone : g.uid_to_index.find? (fun p => p.1 == n.get_id) = none := by
    rw [List.find?_eq_none]
    intro p hp hbeq
    have : g.uid_to_index.any (fun k => k.1 == n.get_id) = true :=
      List.any_eq_true.2 ⟨p, hp, hbeq⟩
    rw [this] at hc
    cases hc
  show (find_index (g.uid_to_index ++ [(n.get_id, g.nodes.length)]) n.get_id).bind
      (fun idx => (g.nodes ++ [n])[idx]?) = some n
  unfold find_index
  rw [List.find?_append, hnone]
  have hfind : List.find? (fun p => p.1 == n.get_id) [(n.get_id, g.nodes.length)]
      = some (n.get_id, g.nodes.length) := by simp
  simp [hfind, List.getElem?_concat_length]

/-- Demo vertex: a Project with identifier 1. -/
def projP1 : Node := .Project 1 "P1" none none none none

/-- Demo vertex: a Project with identifier 2. -/
def projP2 : Node := .Project 2 "P2" none none none none

/-- Demo vertex: a Spec that shares identifier 1 with `projP1`. -/
def specS1 : Node := .Spec 1 "S1" none none

/-- Demo vertex: a Tasks item that shares identifier 2 with `projP2`. -/
def tasksT2 : Node := .Tasks 2 "T2" none ⟨0, none, none⟩ none none

/-- Demo state: the empty graph after inserting `projP1` and `projP2`. -/
def gTwo : ProjectGraph := (add_node (add_node ProjectGraph.new projP1).2 projP2).2

/-- Demo state: `gTwo` after a successful `connect_nodes projP1 projP2 Contains`. -/
def gChain : ProjectGraph := (connect_nodes gTwo projP1 projP2 DependencyType.Contains).2

/-- Demo state: Spec 1 and Tasks 2 are stored, then `connect_nodes` is called
with detached Project values carrying those same identifiers; the call
succeeds and stores a Spec → Tasks `Contains` edge. -/
def gForged : ProjectGraph :=
  (connect_nodes (add_node (add_node ProjectGraph.new specS1).2 tasksT2).2
    projP1 projP2 DependencyType.Contains).2

/-- C1: every graph state reachable from the empty graph by `add_node` /
`connect_nodes` calls (in particular by the successful ones; failed calls do
not change the state) has no directed cycle for any combination of edge
types, and the full directed-cycle scan (`is_cyclic_directed`) reports no
cycle on it. -/
theorem claim_C1_acyclicity (g : ProjectGraph) (h : Reachable g) :
    isCyclicDirected g.edges = false ∧ ¬ HasCycle g.edges :=
  ⟨reachable_not_cyclic h,
    (isCyclicDirected_eq_false_iff g.edges).1 (reachable_not_cyclic h)⟩

theorem claim_C1_witness :
    isCyclicDirected gChain.edges = false ∧ ¬ HasCycle gChain.edges :=
  claim_C1_acyclicity gChain
    (Reachable.connect _ _ _ _
      (Reachable.addNode _ _ (Reachable.addNode _ _ Reachable.empty)))

/-- C2: on every reachable graph state, a `connect_nodes` call that fails
with the "would create cycle" error leaves the graph (vertex list, edge list
with labels, and identifier-to-index map) exactly as before the call. -/
theorem claim_C2_rollback (g : ProjectGraph) (n1 n2 : Node) (t : DependencyType)
    (_hg : Reachable g)
    (herr : (connect_nodes g n1 n2 t).1 = RResult.err "Connection would create a cycle") :
    (connect_nodes g n1 n2 t).2 = g := by
  rcases connect_nodes_shape g n1 n2 t with heq | ⟨i, j, _, _, _, _, hres⟩
  · exact heq
  · rw [hres] at herr
    cases herr

theorem claim_C2_witness :
    (connect_nodes gChain projP2 projP1 DependencyType.Contains).1 =
      RResult.err "Connection would create a cycle" ∧
    (connect_nodes gChain projP2 projP1 DependencyType.Contains).2 = gChain :=
  ⟨by decide,
    claim_C2_rollback gChain projP2 projP1 DependencyType.Contains
      (Reachable.connect _ _ _ _
        (Reachable.addNode _ _ (Reachable.addNode _ _ Reachable.empty)))
      (by decide)⟩

/-- C3 (counterexample): the claim fails for arbitrary node arguments.  The
compatibility policy is evaluated on the caller-supplied argument values,
not on the stored vertices: after inserting Spec 1 and Tasks 2, calling
`connect_nodes` with detached Project values that carry identifiers 1 and 2
succeeds, storing an edge whose stored endpoints are the Spec and the Tasks
vertex — a (Spec, Tasks, Contains) triple the policy forbids. -/
theorem claim_C3_counterexample : Reachable gForged ∧ ¬ EdgesRespectPolicy gForged := by
  refine ⟨Reachable.connect _ _ _ _
    (Reachable.addNode _ _ (Reachable.addNode _ _ Reachable.empty)), ?_⟩
  intro hresp
  have hmem : Edge.mk 0 1 DependencyType.Contains ∈ gForged.edges := by decide
  obtain ⟨nf, nt, h1, h2, hv⟩ := hresp _ hmem
  have hnf : gForged.nodes[(0 : Nat)]? = some specS1 := by decide
  have hnt : gForged.nodes[(1 : Nat)]? = some tasksT2 := by decide
  have e1 : nf = specS1 := Option.some.inj (h1.symm.trans hnf)
  have e2 : nt = tasksT2 := Option.some.inj (h2.symm.trans hnt)
  rw [e1, e2] at hv
  exact absurd hv (by decide)

/-- C3 (amended): restricted to call sequences in which every
`connect_nodes` call passes vertex values that are stored in the graph under
their own identifiers (the intended use of the reference-taking API), every
edge's (stored source variant, stored target variant, edge type) triple is
permitted by the compatibility policy; stored vertices are never mutated, so
this is equivalent to validity at the moment of insertion. -/
theorem claim_C3_amended (g : ProjectGraph) (h : ReachableS g) :
    EdgesRespectPolicy g :=
  reachableS_edges_respect h

theorem claim_C3_witness : EdgesRespectPolicy gChain :=
  claim_C3_amended gChain
    (ReachableS.connect _ _ _ _
      (ReachableS.addNode _ _ (ReachableS.addNode _ _ ReachableS.empty))
      (by decide) (by decide))

/-- C4: the compatibility decision function returns true exactly on the
seventeen triples of the §4.2 table (as listed in `policyTable`), and for
every triple outside the table `connect_nodes` fails with the "invalid
relationship" error on every graph, regardless of graph contents or cycle
considerations. -/
theorem claim_C4_policy_table :
    (∀ (f t : Node) (d : DependencyType),
      is_valid_connection f t d = true ↔ (f.kind, t.kind, d) ∈ policyTable) ∧
    (∀ (g : ProjectGraph) (f t : Node) (d : DependencyType),
      (f.kind, t.kind, d) ∉ policyTable →
      connect_nodes g f t d =
        (RResult.err "Invalid connection between the two nodes", g)) := by
  refine ⟨is_valid_connection_iff_mem_table, ?_⟩
  intro g f t d hmem
  apply connect_nodes_of_invalid
  by_cases hv : is_valid_connection f t d = true
  · exact absurd ((is_valid_connection_iff_mem_table f t d).1 hv) hmem
  · exact Bool.not_eq_true _ ▸ hv

theorem claim_C4_witness :
    (specS1.kind, tasksT2.kind, DependencyType.Contains) ∉ policyTable ∧
    connect_nodes gTwo specS1 tasksT2 DependencyType.Contains =
      (RResult.err "Invalid connection between the two nodes", gTwo) :=
  ⟨by decide,
    claim_C4_policy_table.2 gTwo specS1 tasksT2 DependencyType.Contains (by decide)⟩

/-- C5: `connect_nodes` runs the compatibility check before the existence
check: an impermissible triple yields the "invalid relationship" error even
when the endpoint identifiers are unknown; the "unknown vertex" error occurs
exactly when the triple is permitted but some endpoint identifier is not
indexed; and in both failure cases the graph is unchanged. -/
theorem claim_C5_check_order (g : ProjectGraph) (n1 n2 : Node) (t : DependencyType) :
    (is_valid_connection n1 n2 t = false →
      connect_nodes g n1 n2 t =
        (RResult.err "Invalid connection between the two nodes", g)) ∧
    ((connect_nodes g n1 n2 t).1 =
        RResult.err "One or more of the nodes does not exist in the graph" ↔
      is_valid_connection n1 n2 t = true ∧
        (contains_key g.uid_to_index n1.get_id = false ∨
         contains_key g.uid_to_index n2.get_id = false)) ∧
    (((connect_nodes g n1 n2 t).1 =
        RResult.err "Invalid connection between the two nodes" ∨
      (connect_nodes g n1 n2 t).1 =
        RResult.err "One or more of the nodes does not exist in the graph") →
      (connect_nodes g n1 n2 t).2 = g) := by
  refine ⟨connect_nodes_of_invalid g n1 n2 t, ?_, ?_⟩
  · constructor
    · intro herr
      by_cases hv : is_valid_connection n1 n2 t = true
      · refine ⟨hv, ?_⟩
        by_cases hc1 : contains_key g.uid_to_index n1.get_id = true
        · by_cases hc2 : contains_key g.uid_to_index n2.get_id = true
          · obtain ⟨i, hi⟩ := Option.isSome_iff_exists.1 ((contains_key_iff_isSome _ _).1 hc1)
            obtain ⟨j, hj⟩ := Option.isSome_iff_exists.1 ((contains_key_iff_isSome _ _).1 hc2)
            rw [connect_nodes_of_present g n1 n2 t hv hc1 hc2] at herr
            by_cases hcyc : isCyclicDirected (Edge.mk i j t :: g.edges) = true
            · rw [try_connect_of_cyclic g n1 n2 t hi hj hcyc] at herr
              exact absurd (RResult.err.inj herr) (by decide)
            · rw [try_connect_of_acyclic g n1 n2 t hi hj (Bool.not_eq_true _ ▸ hcyc)] at herr
              cases herr
          · exact Or.inr (Bool.not_eq_true _ ▸ hc2)
        · exact Or.inl (Bool.not_eq_true _ ▸ hc1)
      · rw [connect_nodes_of_invalid g n1 n2 t (Bool.not_eq_true _ ▸ hv)] at herr
        exact absurd (RResult.err.inj herr) (by decide)
    · rintro ⟨hv, hm⟩
      rw [connect_nodes_of_missing g n1 n2 t hv hm]
  · intro herr
    by_cases hv : is_valid_connection n1 n2 t = true
    · by_cases hc1 : contains_key g.uid_to_index n1.get_id = true
      · by_cases hc2 : contains_key g.uid_to_index n2.get_id = true
        · obtain ⟨i, hi⟩ := Option.isSome_iff_exists.1 ((contains_key_iff_isSome _ _).1 hc1)
          obtain ⟨j, hj⟩ := Option.isSome_iff_exists.1 ((contains_key_iff_isSome _ _).1 hc2)
          rw [connect_nodes_of_present g n1 n2 t hv hc1 hc2] at herr ⊢
          by_cases hcyc : isCyclicDirected (Edge.mk i j t :: g.edges) = true
          · rw [try_connect_of_cyclic g n1 n2 t hi hj hcyc] at herr
            rcases herr with herr | herr <;>
              exact absurd (RResult.err.inj herr) (by decide)
          · rw [try_connect_of_acyclic g n1 n2 t hi hj (Bool.not_eq_true _ ▸ hcyc)] at herr
            rcases herr with herr | herr <;> cases herr
        · rw [connect_nodes_of_missing g n1 n2 t hv (Or.inr (Bool.not_eq_true _ ▸ hc2))]
      · rw [connect_nodes_of_missing g n1 n2 t hv (Or.inl (Bool.not_eq_true _ ▸ hc1))]
    · rw [connect_nodes_of_invalid g n1 n2 t (Bool.not_eq_true _ ▸ hv)]

theorem claim_C5_witness :
    is_valid_connection specS1 tasksT2 DependencyType.Contains = false ∧
    connect_nodes ProjectGraph.new specS1 tasksT2 DependencyType.Contains =
      (RResult.err "Invalid connection between the two nodes", ProjectGraph.new) :=
  ⟨by decide,
    (claim_C5_check_order ProjectGraph.new specS1 tasksT2 DependencyType.Contains).1
      (by decide)⟩

/-- C6: `add_node` fails with "duplicate identifier" exactly when the
vertex's identifier is already indexed, leaving the graph unchanged; on
success it appends the vertex and records identifier → position; hence from
a reachable state without the identifier, inserting twice succeeds once,
fails the second time (for any vertex carrying that identifier), and leaves
exactly one stored vertex with that identifier. -/
theorem claim_C6_add_node (g : ProjectGraph) (v : Node) :
    ((add_node g v).1 = RResult.err "The node has already been inserted into the graph" ↔
      contains_key g.uid_to_index v.get_id = true) ∧
    (contains_key g.uid_to_index v.get_id = true → (add_node g v).2 = g) ∧
    (contains_key g.uid_to_index v.get_id = false →
      add_node g v = (RResult.ok,
        { nodes := g.nodes ++ [v], edges := g.edges,
          uid_to_index := g.uid_to_index ++ [(v.get_id, g.nodes.length)] })) ∧
    (Reachable g → contains_key g.uid_to_index v.get_id = false →
      ∀ w : Node, w.get_id = v.get_id →
        (add_node g v).1 = RResult.ok ∧
        (add_node (add_node g v).2 w).1 =
          RResult.err "The node has already been inserted into the graph" ∧
        (add_node (add_node g v).2 w).2 = (add_node g v).2 ∧
        ((add_node (add_node g v).2 w).2.nodes.filter
            (fun n => n.get_id == v.get_id)).length = 1) := by
  have hiff :
      (add_node g v).1 = RResult.err "The node has already been inserted into the graph" ↔
      contains_key g.uid_to_index v.get_id = true := by
    by_cases hc : g.uid_to_index.any (fun k => k.1 == v.get_id) = true
    · rw [add_node_err_graph g v hc]
      exact ⟨fun _ => hc, fun _ => rfl⟩
    · rw [add_node_ok_graph g v (Bool.not_eq_true _ ▸ hc)]
      constructor
      · intro h; cases h
      · intro h; exact absurd h hc
  refine ⟨hiff, ?_, ?_, ?_⟩
  · intro hc
    rw [add_node_err_graph g v hc]
  · intro hc
    exact add_node_ok_graph g v hc
  · intro hra hc w hw
    have hok : add_node g v = (RResult.ok,
        { nodes := g.nodes ++ [v], edges := g.edges,
          uid_to_index := g.uid_to_index ++ [(v.get_id, g.nodes.length)] }) :=
      add_node_ok_graph g v hc
    have hc2 : (add_node g v).2.uid_to_index.any (fun k => k.1 == w.get_id) = true := by
      rw [hok]
      simp [List.any_append, hw]
    have herr2 := add_node_err_graph (add_node g v).2 w hc2
    refine ⟨by rw [hok], by rw [herr2], by rw [herr2], ?_⟩
    rw [herr2]
    have hnone : ∀ n ∈ g.nodes, (n.get_id == v.get_id) = false := by
      intro n hn
      have hmem : n.get_id ∈ g.nodes.map Node.get_id := List.mem_map_of_mem _ hn
      rw [← reachable_ids hra] at hmem
      obtain ⟨p, hp, hpeq⟩ := List.mem_map.1 hmem
      by_contra hbeq
      have hbeq' : (n.get_id == v.get_id) = true := by
        cases hb : (n.get_id == v.get_id)
        · exact absurd hb hbeq
        · rfl
      have : (p.1 == v.get_id) = true := by
        rw [hpeq]; exact hbeq'
      have hany : g.uid_to_index.any (fun k => k.1 == v.get_id) = true :=
        List.any_eq_true.2 ⟨p, hp, this⟩
      have hfalse : g.uid_to_index.any (fun k => k.1 == v.get_id) = false := hc
      rw [hany] at hfalse
      cases hfalse
    rw [hok]
    have hfilter : (g.nodes ++ [v]).filter (fun n => n.get_id == v.get_id) =
        g.nodes.filter (fun n => n.get_id == v.get_id) ++
          [v].filter (fun n => n.get_id == v.get_id) := List.filter_append _ _
    have hnil : g.nodes.filter (fun n => n.get_id == v.get_id) = [] := by
      rw [List.filter_eq_nil_iff]
      intro n hn
      rw [hnone n hn]
      exact Bool.false_ne_true
    show ((g.nodes ++ [v]).filter (fun n => n.get_id == v.get_id)).length = 1
    rw [hfilter, hnil]
    simp

theorem claim_C6_witness :
    contains_key ProjectGraph.new.uid_to_index projP1.get_id = false ∧
    (add_node ProjectGraph.new projP1).1 = RResult.ok ∧
    (add_node (add_node ProjectGraph.new projP1).2 projP1).1 =
      RResult.err "The node has already been inserted into the graph" ∧
    (add_node (add_node ProjectGraph.new projP1).2 projP1).2 =
      (add_node ProjectGraph.new projP1).2 ∧
    ((add_node (add_node ProjectGraph.new projP1).2 projP1).2.nodes.filter
        (fun n => n.get_id == projP1.get_id)).length = 1 :=
  ⟨by decide,
    (claim_C6_add_node ProjectGraph.new projP1).2.2.2 Reachable.empty (by decide)
      projP1 rfl⟩

/-- C7: `set_timeline` stores `Some t` on a Project, overwrites the required
timeline on Epic/UserStory/Tasks, and is a silent no-op on a Spec (the
function is total and returns no error value); every other field is left
unchanged, as the per-variant equations show. -/
theorem claim_C7_set_timeline (t : Timeline) :
    (∀ id name link tl ow pa,
      Node.set_timeline (.Project id name link tl ow pa) t =
        .Project id name link (some t) ow pa) ∧
    (∀ id name link ow,
      Node.set_timeline (.Spec id name link ow) t = .Spec id name link ow) ∧
    (∀ id name link tl pts ow pa,
      Node.set_timeline (.Epic id name link tl pts ow pa) t =
        .Epic id name link t pts ow pa) ∧
    (∀ id name link tl pts ow,
      Node.set_timeline (.UserStory id name link tl pts ow) t =
        .UserStory id name link t pts ow) ∧
    (∀ id name link tl pts ow,
      Node.set_timeline (.Tasks id name link tl pts ow) t =
        .Tasks id name link t pts ow) :=
  ⟨fun _ _ _ _ _ _ => rfl, fun _ _ _ _ => rfl, fun _ _ _ _ _ _ _ => rfl,
    fun _ _ _ _ _ _ => rfl, fun _ _ _ _ _ _ => rfl⟩

/-- C8: participant mutators succeed only on Project and Epic and fail with
the "unsupported attribute" error on Spec/UserStory/Tasks;
`remove_participant` on Project/Epic additionally fails with a "not found"
error when the participant set is absent or lacks the name; `set_points`
succeeds (storing the readable value) only on Epic/UserStory/Tasks and fails
with the "unsupported attribute" error on Project/Spec; every failing call
returns the vertex unchanged. -/
theorem claim_C8_attribute_gates :
    (∀ (nd : Node) (p : String),
      nd.kind = NodeKind.Spec ∨ nd.kind = NodeKind.UserStory ∨ nd.kind = NodeKind.Tasks →
        Node.add_participant nd p =
          (RResult.err "This node type does not support participants", nd) ∧
        Node.remove_participant nd p =
          (RResult.err "This node type does not support participants", nd)) ∧
    (∀ (nd : Node) (p : String),
      nd.kind = NodeKind.Project ∨ nd.kind = NodeKind.Epic →
        (Node.add_participant nd p).1 = RResult.ok) ∧
    (∀ id name link tl ow p,
      Node.remove_participant (.Project id name link tl ow none) p =
        (RResult.err "Participants for this node are empty",
          .Project id name link tl ow none)) ∧
    (∀ id name link tl ow hs p, p ∉ hs →
      Node.remove_participant (.Project id name link tl ow (some hs)) p =
        (RResult.err "participant does not exist",
          .Project id name link tl ow (some hs))) ∧
    (∀ id name link tl pts ow p,
      Node.remove_participant (.Epic id name link tl pts ow none) p =
        (RResult.err "Participants for this node are empty",
          .Epic id name link tl pts ow none)) ∧
    (∀ id name link tl pts ow hs p, p ∉ hs →
      Node.remove_participant (.Epic id name link tl pts ow (some hs)) p =
        (RResult.err "participant does not exist",
          .Epic id name link tl pts ow (some hs))) ∧
    (∀ id name link tl ow hs p, p ∈ hs →
      (Node.remove_participant (.Project id name link tl ow (some hs)) p).1 =
        RResult.ok) ∧
    (∀ id name link tl pts ow hs p, p ∈ hs →
      (Node.remove_participant (.Epic id name link tl pts ow (some hs)) p).1 =
        RResult.ok) ∧
    (∀ id name link tl pts ow pa n,
      Node.set_points (.Epic id name link tl pts ow pa) n =
        (RResult.ok, .Epic id name link tl (some n) ow pa)) ∧
    (∀ id name link tl pts ow n,
      Node.set_points (.UserStory id name link tl pts ow) n =
        (RResult.ok, .UserStory id name link tl (some n) ow)) ∧
    (∀ id name link tl pts ow n,
      Node.set_points (.Tasks id name link tl pts ow) n =
        (RResult.ok, .Tasks id name link tl (some n) ow)) ∧
    (∀ id name link tl ow pa n,
      Node.set_points (.Project id name link tl ow pa) n =
        (RResult.err "This node type does not contain points",
          .Project id name link tl ow pa)) ∧
    (∀ id name link ow n,
      Node.set_points (.Spec id name link ow) n =
        (RResult.err "This node type does not contain points",
          .Spec id name link ow)) := by
  refine ⟨?_, ?_, fun _ _ _ _ _ _ => rfl, ?_, fun _ _ _ _ _ _ _ => rfl, ?_, ?_, ?_,
    fun _ _ _ _ _ _ _ _ => rfl, fun _ _ _ _ _ _ _ => rfl, fun _ _ _ _ _ _ _ => rfl,
    fun _ _ _ _ _ _ _ => rfl, fun _ _ _ _ _ => rfl⟩
  · intro nd p hk
    cases nd <;> simp [Node.kind] at hk <;>
      exact ⟨rfl, rfl⟩
  · intro nd p hk
    cases nd <;> simp [Node.kind] at hk <;> rfl
  · intro id name link tl ow hs p hp
    simp [Node.remove_participant, hp]
  · intro id name link tl pts ow hs p hp
    simp [Node.remove_participant, hp]
  · intro id name link tl ow hs p hp
    simp [Node.remove_participant, hp]
  · intro id name link tl pts ow hs p hp
    simp [Node.remove_participant, hp]

theorem claim_C8_witness :
    (("bob" ∉ (["alice"] : Participants)) ∧
      Node.remove_participant (.Project 1 "P" none none none (some ["alice"])) "bob" =
        (RResult.err "participant does not exist",
          .Project 1 "P" none none none (some ["alice"]))) ∧
    (("alice" ∈ (["alice"] : Participants)) ∧
      (Node.remove_participant (.Project 1 "P" none none none (some ["alice"])) "alice").1 =
        RResult.ok) ∧
    ((Node.UserStory 3 "U" none ⟨0, none, none⟩ none none).kind = NodeKind.UserStory ∧
      Node.add_participant (.UserStory 3 "U" none ⟨0, none, none⟩ none none) "bob" =
        (RResult.err "This node type does not support participants",
          .UserStory 3 "U" none ⟨0, none, none⟩ none none)) :=
  ⟨⟨by decide,
      claim_C8_attribute_gates.2.2.2.1 1 "P" none none none ["alice"] "bob" (by decide)⟩,
    ⟨by decide,
      claim_C8_attribute_gates.2.2.2.2.2.2.1 1 "P" none none none ["alice"] "alice"
        (by decide)⟩,
    ⟨rfl,
      (claim_C8_attribute_gates.1 (.UserStory 3 "U" none ⟨0, none, none⟩ none none) "bob"
        (Or.inr (Or.inl rfl))).1⟩⟩

theorem connectStar_uid {g g2 : ProjectGraph} (h : ConnectStar g g2) :
    g2.uid_to_index = g.uid_to_index := by
  induction h with
  | refl => rfl
  | tail gm n1 n2 t _ ih =>
      rw [(connect_nodes_nodes_eq gm n1 n2 t).2, ih]

/-- C9: `add_node` stores a clone of its argument (in the pure embedding, the
inserted value itself), later `connect_nodes` transitions never touch the
vertex arena or the identifier index, and `get_node` / `get_dependencies`
take the graph immutably; mutation of the caller's copy (e.g. `set_id`)
produces a fresh value and cannot reach the stored one.  Hence after a
successful insertion of `v`, any sequence of `connect_nodes` calls leaves
`get_node` at `v`'s insertion-time identifier returning exactly `v`, and the
identifier index equal to the one set up at insertion. -/
theorem claim_C9_stored_immutable (g : ProjectGraph) (v : Node) (g2 : ProjectGraph)
    (hok : (add_node g v).1 = RResult.ok)
    (hstar : ConnectStar (add_node g v).2 g2) :
    get_node g2 v.get_id = some v ∧
    g2.uid_to_index = (add_node g v).2.uid_to_index :=
  ⟨by
    rw [connectStar_get_node hstar]
    exact add_node_ok_get_node g v hok,
  connectStar_uid hstar⟩

theorem claim_C9_witness :
    (add_node (add_node ProjectGraph.new projP2).2 projP1).1 = RResult.ok ∧
    (get_node (connect_nodes (add_node (add_node ProjectGraph.new projP2).2 projP1).2
          projP1 projP2 DependencyType.Contains).2 projP1.get_id = some projP1 ∧
      (connect_nodes (add_node (add_node ProjectGraph.new projP2).2 projP1).2
          projP1 projP2 DependencyType.Contains).2.uid_to_index =
        (add_node (add_node ProjectGraph.new projP2).2 projP1).2.uid_to_index) :=
  ⟨by decide,
    claim_C9_stored_immutable (add_node ProjectGraph.new projP2).2 projP1 _
      (by decide)
      (ConnectStar.tail _ _ _ _ _ (ConnectStar.refl _))⟩

/-- Tests whether an outcome is a modelled `panic!`. -/
def RResult.isPanic : RResult → Bool
  | .panic _ => true
  | _ => false

/-- C10: `connect_nodes` never panics: the existence check on both endpoint
identifiers runs before `try_connect`, so the two `expect` branches inside
`try_connect` are unreachable for every graph state and all arguments. -/
theorem claim_C10_no_panic (g : ProjectGraph) (n1 n2 : Node) (t : DependencyType) :
    ((connect_nodes g n1 n2 t).1).isPanic = false := by
  by_cases hv : is_valid_connection n1 n2 t = true
  · by_cases hc1 : contains_key g.uid_to_index n1.get_id = true
    · by_cases hc2 : contains_key g.uid_to_index n2.get_id = true
      · obtain ⟨i, hi⟩ := Option.isSome_iff_exists.1 ((contains_key_iff_isSome _ _).1 hc1)
        obtain ⟨j, hj⟩ := Option.isSome_iff_exists.1 ((contains_key_iff_isSome _ _).1 hc2)
        rw [connect_nodes_of_present g n1 n2 t hv hc1 hc2]
        by_cases hcyc : isCyclicDirected (Edge.mk i j t :: g.edges) = true
        · rw [try_connect_of_cyclic g n1 n2 t hi hj hcyc]
          rfl
        · rw [try_connect_of_acyclic g n1 n2 t hi hj (Bool.not_eq_true _ ▸ hcyc)]
          rfl
      · rw [connect_nodes_of_missing g n1 n2 t hv (Or.inr (Bool.not_eq_true _ ▸ hc2))]
        rfl
    · rw [connect_nodes_of_missing g n1 n2 t hv (Or.inl (Bool.not_eq_true _ ▸ hc1))]
      rfl
  · rw [connect_nodes_of_invalid g n1 n2 t (Bool.not_eq_true _ ▸ hv)]
    rfl
